import Mathlib

/-!
Verification development for the TeamWorkPlatform AI-assistant command
interpreter (`src/services/aiService.ts` together with the CRUD services it
dispatches to).  The TypeScript source is embedded shallowly:

* JS `Date` values are modelled by `TWP.JSDate`, a normalized proleptic
  Gregorian civil date plus a millisecond-of-day field; `new Date(y, m, d)`
  month/day normalization is modelled by `TWP.mkDate`.
* The JS regular expressions appearing in the source are transcribed into a
  small regex AST (`TWP.RE`) and executed by a backtracking matcher with JS
  semantics (leftmost match, greedy/lazy quantifiers, ordered alternation).
* Asynchronous CRUD collaborators (Supabase tables, the Gemini chat model)
  are modelled by an environment record `TWP.Env`; a promise rejection is an
  `Except.error`, a resolved `{data, error}` pair is an `Except.ok` carrying
  both fields.  `try`/`catch` becomes pattern matching on the `Except`.

All functions are total; fuel arguments are used where the JS loops are not
structurally recursive, with enough fuel that the model agrees with the code
on every reachable input.
-/

namespace TWP

/-! ## Characters, strings and JS helpers -/

/-- The characters JS `\s` (and `String.prototype.trim`) treat as whitespace,
restricted to those expressible here; all inputs in this development only ever
use the ASCII ones. -/
def jsSpaceChars : List Char :=
  [' ', '\t', '\n', '\r', Char.ofNat 11, Char.ofNat 12, Char.ofNat 0xA0,
   Char.ofNat 0x2028, Char.ofNat 0x2029, Char.ofNat 0xFEFF, Char.ofNat 0x3000]

def isJsSpace (c : Char) : Bool := jsSpaceChars.contains c

def isDigitChar (c : Char) : Bool := decide ('0' ≤ c) && decide (c ≤ '9')

/-- JS `String.prototype.trim`. -/
def jsTrim (s : List Char) : List Char :=
  ((s.dropWhile isJsSpace).reverse.dropWhile isJsSpace).reverse

/-- JS `String.prototype.toLowerCase`, modelled characterwise (the Korean
keywords are unaffected; the ASCII letters in `days?`/`weeks?` are the only
case-sensitive text the interpreter matches). -/
def jsToLower (s : String) : String := ⟨s.data.map Char.toLower⟩

/-- JS `String.prototype.length` counts UTF-16 code units. -/
def utf16Len (s : String) : Nat :=
  s.data.foldl (fun n c => n + (if c.toNat < 0x10000 then 1 else 2)) 0

/-- Boolean substring occurrence check. -/
def listIsInfix (sub : List Char) : List Char → Bool
  | [] => sub.isEmpty
  | c :: tail => List.isPrefixOf sub (c :: tail) || listIsInfix sub tail

/-- JS `String.prototype.includes`: `strContains s sub` is true when `sub`
occurs as a contiguous substring of `s`. -/
def strContains (s sub : String) : Bool := listIsInfix sub.data s.data

/-- JS `parseInt` on a string of decimal digits (the only shape the captures
fed to `parseInt` in the source can have). -/
def natOfDigits (s : List Char) : Nat :=
  s.foldl (fun a c => a * 10 + (c.toNat - 48)) 0

/-! ## A small regex engine with JS semantics

Only the constructs actually used by `aiService.ts` are supported: literal
strings, `\d`, `\s`, `.`, ordered alternation, groups, greedy `*` `+` `{m,n}`
over single-character classes, lazy `+?` over single-character classes, and
greedy `(...)?`. -/

/-- Single-character classes. -/
inductive CC where
  | digit
  | space
  | anyNotNL
  | lit (c : Char)
  | oneOf (cs : List Char)
deriving DecidableEq, Repr

def CC.test : CC → Char → Bool
  | .digit, c => isDigitChar c
  | .space, c => isJsSpace c
  | .anyNotNL, c =>
      !(c = '\n' || c = '\r' || c = Char.ofNat 0x2028 || c = Char.ofNat 0x2029)
  | .lit l, c => c = l
  | .oneOf cs, c => cs.contains c

/-- Regex AST.  `rep cls min max lzy` is `cls{min,max}` (`max = none` means
unbounded), lazy when `lzy` is true, and never contains groups, which matches
every quantifier in the source. -/
inductive RE where
  | eps
  | str (s : List Char)
  | seq (a b : RE)
  | alt (a b : RE)
  | rep (cls : CC) (mn : Nat) (mx : Option Nat) (lzy : Bool)
  | opt (a : RE)
  | group (i : Nat) (a : RE)
deriving Repr

/-- Captures as an association list; the most recent write is first. -/
abbrev Caps := List (Nat × List Char)

/-- Length of the maximal prefix of `s` whose characters satisfy `cls`. -/
def runLen (cls : CC) : List Char → Nat
  | [] => 0
  | c :: cs => if cls.test c then runLen cls cs + 1 else 0

/-- Try each count in `ns` in order, keeping the first success. -/
def tryCounts {β : Type} (k : Nat → Option β) : List Nat → Option β
  | [] => none
  | n :: ns => (k n).orElse fun _ => tryCounts k ns

/-- CPS backtracking matcher.  `matchRE re s caps k` attempts to match `re`
against a prefix of `s`; on each candidate split it calls the continuation
`k` with the remaining suffix and the updated captures, and backtracks while
`k` returns `none`.  Alternatives are tried left first, greedy repetitions
longest first, lazy repetitions shortest first — JS backtracking order. -/
def matchRE {β : Type} : RE → List Char → Caps → (List Char → Caps → Option β) → Option β
  | .eps, s, caps, k => k s caps
  | .str lit, s, caps, k =>
      if List.isPrefixOf lit s then k (s.drop lit.length) caps else none
  | .seq a b, s, caps, k =>
      matchRE a s caps (fun s2 caps2 => matchRE b s2 caps2 k)
  | .alt a b, s, caps, k =>
      (matchRE a s caps k).orElse fun _ => matchRE b s caps k
  | .rep cls mn mx lzy, s, caps, k =>
      let hi := match mx with
        | some m => min (runLen cls s) m
        | none => runLen cls s
      if hi < mn then none
      else
        let counts := if lzy then
          (List.range (hi - mn + 1)).map (fun i => mn + i)
        else
          (List.range (hi - mn + 1)).map (fun i => hi - i)
        tryCounts (fun n => k (s.drop n) caps) counts
  | .opt a, s, caps, k =>
      (matchRE a s caps k).orElse fun _ => k s caps
  | .group i a, s, caps, k =>
      matchRE a s caps
        (fun s2 caps2 => k s2 ((i, s.take (s.length - s2.length)) :: caps2))

/-- Result of a successful regex search: the text before the match, the
matched text, the text after it, and the captures. -/
structure MatchRes where
  pre : List Char
  matched : List Char
  post : List Char
  caps : Caps

/-- Attempt a match anchored at the start of `s`. -/
def matchAt (re : RE) (s : List Char) : Option (List Char × List Char × Caps) :=
  matchRE re s []
    (fun rest caps => some (s.take (s.length - rest.length), rest, caps))

/-- JS `String.prototype.match` / leftmost search: try each start position
from the left, earliest wins. -/
def jsSearchAux (re : RE) : List Char → List Char → Option MatchRes
  | acc, s =>
    match matchAt re s with
    | some (m, rest, caps) => some ⟨acc.reverse, m, rest, caps⟩
    | none =>
      match s with
      | [] => none
      | c :: cs => jsSearchAux re (c :: acc) cs

def jsSearch (re : RE) (s : List Char) : Option MatchRes := jsSearchAux re [] s

/-- `str.match(re)` restricted to what the source reads from it: the captures
(`none` when the whole match fails). -/
def jsMatchCaps (re : RE) (s : String) : Option Caps :=
  (jsSearch re s.data).map MatchRes.caps

/-- Capture group `i` as a string, `none` when the group did not participate
(JS `undefined`). -/
def capStr (caps : Caps) (i : Nat) : Option String :=
  (List.lookup i caps).map List.asString

/-- `parseInt` applied to capture group `i` (only ever used on groups that
participated and consist of decimal digits). -/
def capNat (caps : Caps) (i : Nat) : Nat :=
  match List.lookup i caps with
  | some ds => natOfDigits ds
  | none => 0

/-- `str.replace(re, '')` with the `g` flag: repeatedly delete the leftmost
match; an empty match (impossible for the patterns in the source, every one
of which requires at least one character) skips one character, as in JS. -/
def replaceAllAux (re : RE) : Nat → List Char → List Char → List Char
  | 0, acc, s => acc.reverse ++ s
  | fuel + 1, acc, s =>
    match jsSearch re s with
    | none => acc.reverse ++ s
    | some res =>
      if res.matched.isEmpty then
        match res.post with
        | [] => acc.reverse ++ res.pre
        | c :: cs => replaceAllAux re fuel (c :: res.pre.reverse ++ acc) cs
      else
        replaceAllAux re fuel (res.pre.reverse ++ acc) res.post

def replaceAll (re : RE) (s : List Char) : List Char :=
  replaceAllAux re (s.length + 1) [] s

/-! Combinator shorthands used to transcribe the source regexes. -/

def reSeq (l : List RE) : RE := l.foldr RE.seq RE.eps

def dstr (s : String) : RE := RE.str s.data

/-- `\d{mn,mx}` (greedy). -/
def digits (mn mx : Nat) : RE := RE.rep CC.digit mn (some mx) false

/-- `\d+` (greedy). -/
def digitsPlus : RE := RE.rep CC.digit 1 none false

/-- `\s*` (greedy). -/
def ws : RE := RE.rep CC.space 0 none false

/-- Ordered alternation of literal strings. -/
def altStrs (l : List String) : RE :=
  match l with
  | [] => RE.eps
  | [s] => dstr s
  | s :: rest => RE.alt (dstr s) (altStrs rest)

/-- A single character drawn from a class. -/
def chCls (c : CC) : RE := RE.rep c 1 (some 1) false

/-! ## JS `Date` model

A `Date` is modelled by its civil fields (proleptic Gregorian, month
0-indexed as in JS) plus the milliseconds elapsed since local midnight.
Ordering of normalized values is lexicographic on the fields, which agrees
with the epoch-millisecond ordering JS `<` uses. -/

def isLeap (y : Nat) : Bool := (y % 4 = 0 && y % 100 != 0) || y % 400 = 0

/-- Days in month `m` (0-indexed) of year `y`. -/
def daysInMonth (y m : Nat) : Nat :=
  if m = 1 then (if isLeap y then 29 else 28)
  else if m = 3 ∨ m = 5 ∨ m = 8 ∨ m = 10 then 30
  else 31

structure JSDate where
  year : Nat
  month : Nat
  day : Nat
  msOfDay : Nat
deriving DecidableEq, Repr

/-- The invariant JS maintains for the observable fields of a `Date`. -/
def JSDate.Valid (t : JSDate) : Prop :=
  1 ≤ t.year ∧ t.month < 12 ∧ 1 ≤ t.day ∧ t.day ≤ daysInMonth t.year t.month ∧
    t.msOfDay < 86400000

instance (t : JSDate) : Decidable t.Valid := by
  unfold JSDate.Valid; infer_instance

/-- Normalize an overflowing day-of-month by walking forward through the
months; `fuel ≥ d` suffices since every step removes at least 28 days. -/
def normDay : Nat → Nat → Nat → Nat → Nat × Nat × Nat
  | 0, y, m, d => (y, m, d)
  | fuel + 1, y, m, d =>
    if d ≤ daysInMonth y m then (y, m, d)
    else if m = 11 then normDay fuel (y + 1) 0 (d - 31)
    else normDay fuel y (m + 1) (d - daysInMonth y m)

/-- `new Date(y, mIdx, d)` (midnight): the month index is normalized by
floored division as in JS (`new Date(y, -1, d)` is December of `y - 1`), a
day of `0` is the last day of the preceding month, and larger days overflow
forward. -/
def mkDate (y : Nat) (mIdx : Int) (d : Nat) : JSDate :=
  let y2 := (Int.ofNat y + Int.ediv mIdx 12).toNat
  let m2 := (Int.emod mIdx 12).toNat
  if d = 0 then
    if m2 = 0 then ⟨y2 - 1, 11, 31, 0⟩
    else ⟨y2, m2 - 1, daysInMonth y2 (m2 - 1), 0⟩
  else
    let r := normDay d y2 m2 d
    ⟨r.1, r.2.1, r.2.2, 0⟩

/-- date-fns `addDays` (non-negative offsets, the only ones the source
uses); the time of day is preserved. -/
def JSDate.addDays (t : JSDate) (n : Nat) : JSDate :=
  let r := normDay (t.day + n) t.year t.month (t.day + n)
  ⟨r.1, r.2.1, r.2.2, t.msOfDay⟩

/-- JS `Date.prototype.setFullYear`: replace the year and renormalize the
day (so Feb 29 becomes Mar 1 when the new year is not a leap year). -/
def JSDate.setFullYear (t : JSDate) (y : Nat) : JSDate :=
  let r := normDay t.day y t.month t.day
  ⟨r.1, r.2.1, r.2.2, t.msOfDay⟩

/-- JS `<` on `Date` values (epoch-millisecond comparison, expressed on the
civil fields). -/
def JSDate.ltB (a b : JSDate) : Bool :=
  decide (a.year < b.year ∨ (a.year = b.year ∧ (a.month < b.month ∨ (a.month = b.month ∧
    (a.day < b.day ∨ (a.day = b.day ∧ a.msOfDay < b.msOfDay))))))

/-- date-fns `setHours` (native setter semantics: hour values ≥ 24 carry
into the following days). -/
def JSDate.setHoursF (t : JSDate) (h : Nat) : JSDate :=
  let ms := h * 3600000 + t.msOfDay % 3600000
  let t2 := t.addDays (ms / 86400000)
  ⟨t2.year, t2.month, t2.day, ms % 86400000⟩

/-- date-fns `setMinutes` (native setter semantics: minute values ≥ 60
carry into the following hours/days). -/
def JSDate.setMinutesF (t : JSDate) (m : Nat) : JSDate :=
  let ms := (t.msOfDay / 3600000) * 3600000 + m * 60000 + t.msOfDay % 60000
  let t2 := t.addDays (ms / 86400000)
  ⟨t2.year, t2.month, t2.day, ms % 86400000⟩

/-- Cumulative days before month `m` (0-indexed) in a non-leap year. -/
def daysBeforeMonth (m : Nat) : Nat :=
  match m with
  | 0 => 0 | 1 => 31 | 2 => 59 | 3 => 90 | 4 => 120 | 5 => 151 | 6 => 181
  | 7 => 212 | 8 => 243 | 9 => 273 | 10 => 304 | 11 => 334 | _ => 365

/-- Rata-die day number of a civil date (month 0-indexed), correct for
`y ≥ 1`: day 1 is January 1 of year 1, a Monday. -/
def rd (y m d : Nat) : Nat :=
  365 * (y - 1) + (y - 1) / 4 - (y - 1) / 100 + (y - 1) / 400
    + daysBeforeMonth m + (if 2 ≤ m ∧ isLeap y = true then 1 else 0) + d

def JSDate.dayNumber (t : JSDate) : Nat := rd t.year t.month t.day

/-- JS `Date.prototype.getDay`: 0 = Sunday … 6 = Saturday. -/
def jsGetDay (t : JSDate) : Nat := t.dayNumber % 7

/-- Models date-fns `nextDay` (and so `nextMonday` … `nextSunday`): add
`target − getDay(date)` days, shifted up by 7 when that is not positive, so
the result is the next occurrence of the weekday strictly after `date`. -/
def nextDayOfWeek (t : JSDate) (target : Nat) : JSDate :=
  let cur := jsGetDay t
  let delta := if target ≤ cur then target + 7 - cur else target - cur
  t.addDays delta

/-! ## The regular expressions of `aiService.ts`, transcribed -/

/-- `/(\d{1,2})\s*월\s*(\d{1,2})\s*일/` (month/day). -/
def monthDayRe : RE :=
  reSeq [RE.group 1 (digits 1 2), ws, dstr "월", ws, RE.group 2 (digits 1 2),
    ws, dstr "일"]

/-- `/(\d{4})\s*년\s*(\d{1,2})\s*월\s*(\d{1,2})\s*일/` (full date). -/
def fullDateRe : RE :=
  reSeq [RE.group 1 (digits 4 4), ws, dstr "년", ws, RE.group 2 (digits 1 2),
    ws, dstr "월", ws, RE.group 3 (digits 1 2), ws, dstr "일"]

/-- `s?` -/
def optS : RE := RE.rep (CC.lit 's') 0 (some 1) false

/-- `/(\d+)\s*(일|days?)\s*(뒤|후)/` (N days later). -/
def daysLaterRe : RE :=
  reSeq [RE.group 1 digitsPlus, ws,
    RE.group 2 (RE.alt (dstr "일") (RE.seq (dstr "day") optS)),
    ws, RE.group 3 (altStrs ["뒤", "후"])]

/-- `/(\d+)\s*(주|주일|weeks?)\s*(뒤|후)/` (N weeks later). -/
def weeksLaterRe : RE :=
  reSeq [RE.group 1 digitsPlus, ws,
    RE.group 2 (RE.alt (dstr "주") (RE.alt (dstr "주일") (RE.seq (dstr "week") optS))),
    ws, RE.group 3 (altStrs ["뒤", "후"])]

/-- `/(오전|오후)\s*(\d{1,2})\s*시\s*(\d{1,2})?\s*(분)?/` (am/pm time). -/
def ampmRe : RE :=
  reSeq [RE.group 1 (altStrs ["오전", "오후"]), ws, RE.group 2 (digits 1 2),
    ws, dstr "시", ws, RE.opt (RE.group 3 (digits 1 2)), ws,
    RE.opt (RE.group 4 (dstr "분"))]

/-- `/(\d{1,2})\s*시\s*(\d{1,2})?\s*(분)?/` (plain time). -/
def timeRe : RE :=
  reSeq [RE.group 1 (digits 1 2), ws, dstr "시", ws,
    RE.opt (RE.group 2 (digits 1 2)), ws, RE.opt (RE.group 3 (dstr "분"))]

/-- `/(\d{1,2}):(\d{2})/` (colon time). -/
def colonRe : RE :=
  reSeq [RE.group 1 (digits 1 2), dstr ":", RE.group 2 (digits 2 2)]

/-- The class `['""]` of the source (an ASCII apostrophe and a doubled ASCII
double quote, i.e. the two ASCII quote characters). -/
def quoteClass : CC := CC.oneOf [Char.ofNat 39, Char.ofNat 34]

/-- `/['""](.+?)['""]|['"](.+?)['"]/` (quoted title). -/
def quotedRe : RE :=
  RE.alt
    (reSeq [chCls quoteClass, RE.group 1 (RE.rep CC.anyNotNL 1 none true),
      chCls quoteClass])
    (reSeq [chCls quoteClass, RE.group 2 (RE.rep CC.anyNotNL 1 none true),
      chCls quoteClass])

/-! The global-replace patterns of the title stripper, in application
order. -/

/-- `/오늘|내일|모레|월요일|화요일|수요일|목요일|금요일|토요일|일요일/g` -/
def stripDateWordsRe : RE :=
  altStrs ["오늘", "내일", "모레", "월요일", "화요일", "수요일", "목요일",
    "금요일", "토요일", "일요일"]

/-- `/\d+\s*(일|주|월|년)\s*(뒤|후)/g` -/
def stripRelDateRe : RE :=
  reSeq [digitsPlus, ws, RE.group 1 (altStrs ["일", "주", "월", "년"]), ws,
    RE.group 2 (altStrs ["뒤", "후"])]

/-- `/\d+월\s*\d+일/g` -/
def stripMonthDayRe : RE :=
  reSeq [digitsPlus, dstr "월", ws, digitsPlus, dstr "일"]

/-- `/(오전|오후)?\s*\d+시(\s*\d+분)?/g` -/
def stripTimeRe : RE :=
  reSeq [RE.opt (RE.group 1 (altStrs ["오전", "오후"])), ws, digitsPlus,
    dstr "시", RE.opt (RE.group 2 (reSeq [ws, digitsPlus, dstr "분"]))]

/-- `/\d+:\d+/g` -/
def stripColonRe : RE :=
  reSeq [digitsPlus, dstr ":", digitsPlus]

/-- `/일정|회의|미팅|약속|할일|할 일|메모|추가|등록|만들|생성|잡아|넣어|해줘|해 줘|에/g` -/
def stripKeywordsRe : RE :=
  altStrs ["일정", "회의", "미팅", "약속", "할일", "할 일", "메모", "추가",
    "등록", "만들", "생성", "잡아", "넣어", "해줘", "해 줘", "에"]

/-! ## `parseKoreanDate` and `parseTime` -/

/-- The weekday table of `parseKoreanDate`, in `Object.entries` insertion
order, with each weekday's JS `getDay` index. -/
def weekdayList : List (String × Nat) :=
  [("월요일", 1), ("화요일", 2), ("수요일", 3), ("목요일", 4), ("금요일", 5),
   ("토요일", 6), ("일요일", 0)]

/-- `parseKoreanDate` of `aiService.ts`; `now` models the `new Date()` taken
at entry. -/
def parseKoreanDate (now : JSDate) (text : String) : Option JSDate :=
  let lowerText := jsToLower text
  if strContains lowerText "오늘" then some now
  else if strContains lowerText "내일" then some (now.addDays 1)
  else if strContains lowerText "모레" then some (now.addDays 2)
  else
    match weekdayList.find? (fun p => strContains lowerText p.1) with
    | some p => some (nextDayOfWeek now p.2)
    | none =>
      match jsMatchCaps daysLaterRe lowerText with
      | some caps => some (now.addDays (capNat caps 1))
      | none =>
        match jsMatchCaps weeksLaterRe lowerText with
        | some caps => some (now.addDays (7 * capNat caps 1))
        | none =>
          match jsMatchCaps monthDayRe lowerText with
          | some caps =>
            let result := mkDate now.year (Int.ofNat (capNat caps 1) - 1) (capNat caps 2)
            if JSDate.ltB result now then some (result.setFullYear (result.year + 1))
            else some result
          | none =>
            match jsMatchCaps fullDateRe lowerText with
            | some caps =>
              some (mkDate (capNat caps 1) (Int.ofNat (capNat caps 2) - 1) (capNat caps 3))
            | none => none

/-- `parseTime` of `aiService.ts`: hours and minutes. -/
def parseTime (text : String) : Option (Nat × Nat) :=
  match jsMatchCaps ampmRe text with
  | some caps =>
    let minutes := match capStr caps 3 with
      | some ds => natOfDigits ds.data
      | none => 0
    let h0 := capNat caps 2
    let h1 := if capStr caps 1 = some "오후" ∧ h0 < 12 then h0 + 12 else h0
    let h2 := if capStr caps 1 = some "오전" ∧ h1 = 12 then 0 else h1
    some (h2, minutes)
  | none =>
    match jsMatchCaps timeRe text with
    | some caps =>
      let minutes := match capStr caps 2 with
        | some ds => natOfDigits ds.data
        | none => 0
      some (capNat caps 1, minutes)
    | none =>
      match jsMatchCaps colonRe text with
      | some caps => some (capNat caps 1, capNat caps 2)
      | none => none

/-! ## `parseCommand` -/

inductive Action where
  | add | update | delete | list | chat
deriving DecidableEq, Repr

inductive Entity where
  | event | todo | memo
deriving DecidableEq, Repr

structure ParsedCommand where
  action : Action
  entity : Option Entity
  title : Option String
  date : Option JSDate
  time : Option String
  content : Option String
  originalMessage : String
deriving DecidableEq, Repr

def addKeywords : List String := ["추가", "등록", "만들", "생성", "잡아", "넣어"]

def deleteKeywords : List String := ["삭제", "지워", "취소", "제거"]

def listKeywords : List String := ["보여", "알려", "뭐", "조회"]

/-- The action-detection loops of `parseCommand` (three keyword lists tried
in order, first hit wins). -/
def detectAction (lowerMessage : String) : Option Action :=
  if addKeywords.any (fun k => strContains lowerMessage k) then some Action.add
  else if deleteKeywords.any (fun k => strContains lowerMessage k) then some Action.delete
  else if listKeywords.any (fun k => strContains lowerMessage k) then some Action.list
  else none

/-- The entity-detection chain of `parseCommand`. -/
def detectEntity (lowerMessage : String) : Option Entity :=
  if strContains lowerMessage "일정" || strContains lowerMessage "회의" ||
      strContains lowerMessage "미팅" || strContains lowerMessage "약속" then
    some Entity.event
  else if strContains lowerMessage "할일" || strContains lowerMessage "할 일" ||
      strContains lowerMessage "업무" || strContains lowerMessage "태스크" then
    some Entity.todo
  else if strContains lowerMessage "메모" || strContains lowerMessage "노트" then
    some Entity.memo
  else none

/-- The keyword-stripping title fallback of `parseCommand`: six global
replaces applied to the original message, then a trim. -/
def stripTitle (message : String) : String :=
  let t1 := replaceAll stripDateWordsRe message.data
  let t2 := replaceAll stripRelDateRe t1
  let t3 := replaceAll stripMonthDayRe t2
  let t4 := replaceAll stripTimeRe t3
  let t5 := replaceAll stripColonRe t4
  let t6 := replaceAll stripKeywordsRe t5
  (jsTrim t6).asString

/-- The title-extraction block of `parseCommand`: a quoted span wins
(`quotedMatch[1] || quotedMatch[2]`); otherwise the stripped message is used
when its JS length exceeds 2. -/
def extractTitle (message : String) : Option String :=
  match jsMatchCaps quotedRe message with
  | some caps =>
    (match capStr caps 1 with
     | some s => if s = "" then capStr caps 2 else some s
     | none => capStr caps 2)
  | none =>
    let t := stripTitle message
    if 2 < utf16Len t then some t else none

def pad2 (n : Nat) : String := if n < 10 then "0" ++ toString n else toString n

/-- `` `${hours}:${String(minutes).padStart(2, '0')}` `` -/
def timeString (h m : Nat) : String := toString h ++ ":" ++ pad2 m

/-- `parseCommand` of `aiService.ts`; `now` models the `new Date()` read by
the date resolver during the call. -/
def parseCommand (now : JSDate) (message : String) : ParsedCommand :=
  let lowerMessage := jsToLower message
  let base : ParsedCommand := ⟨Action.chat, none, none, none, none, none, message⟩
  match detectAction lowerMessage with
  | none => base
  | some act =>
    match detectEntity lowerMessage with
    | none => base
    | some ent =>
      let parsedDate := parseKoreanDate now message
      let dt : Option JSDate × Option String :=
        match parseTime message, parsedDate with
        | some hm, some d =>
          (some ((d.setHoursF hm.1).setMinutesF hm.2), some (timeString hm.1 hm.2))
        | _, _ => (parsedDate, none)
      ⟨act, some ent, extractTitle message, dt.1, dt.2, none, message⟩

/-! ## The CRUD collaborators and the dispatch environment

Each backend interaction of one dispatch is modelled by the response it
resolves to: `Except.error` is a rejected promise, `Except.ok` a resolved
`{ data, error }` pair.  The rows being inserted are absorbed by the
environment (the dispatcher never reads them back except through `data`). -/

structure JsError where
  message : String
deriving DecidableEq, Repr

/-- A resolved Supabase response. -/
structure SupaRes (α : Type) where
  data : Option α
  error : Option JsError
deriving DecidableEq, Repr

/-- Raw rows of the `todos` table (nullable columns). -/
structure DbTodo where
  id : Nat
  title : String
  description : Option String
  project : Option String
  due_date : Option String
  status : Option String
  priority : Option String
  assignee : Option String
  is_deleted : Option Bool
deriving DecidableEq, Repr

structure TodoItem where
  id : Nat
  title : String
  description : String
  project : String
  dueDate : String
  status : String
  priority : String
  assignee : String
  isDeleted : Bool
deriving DecidableEq, Repr

/-- Raw rows of the `events` table; the `toISOString`/`new Date` round trip
is abstracted by storing the instants the strings denote. -/
structure DbEvent where
  id : Nat
  title : String
  start_date : JSDate
  end_date : JSDate
  type : String
  color : String
deriving DecidableEq, Repr

structure CalendarEvent where
  id : Nat
  title : String
  startDate : JSDate
  endDate : JSDate
  type : String
  color : String
deriving DecidableEq, Repr

/-- Raw rows of the `memos` table (only the fields the dispatcher can
observe). -/
structure DbMemo where
  id : Nat
  title : String
  content : String
deriving DecidableEq, Repr

/-- The external world for one dispatch. -/
structure Env where
  eventsInsert : Except JsError (SupaRes DbEvent)
  todosInsert : Except JsError (SupaRes DbTodo)
  memosInsert : Except JsError (SupaRes DbMemo)
  eventsSelect : Except JsError (SupaRes (List DbEvent))
  todosSelect : Except JsError (SupaRes (List DbTodo))
  gemini : String → Except JsError String

/-- JS `x || d` for a nullable string (`null`, `undefined` and `""` are
falsy). -/
def jsOrStr (o : Option String) (d : String) : String :=
  match o with
  | some s => if s = "" then d else s
  | none => d

/-- JS `x || false` for a nullable boolean. -/
def jsOrFalse (o : Option Bool) : Bool :=
  match o with
  | some b => b
  | none => false

/-- The snake-case-to-camel-case row mapping of `todoService.getTodos` /
`createTodo`. -/
def mapDbTodo (t : DbTodo) : TodoItem :=
  ⟨t.id, t.title, jsOrStr t.description "", jsOrStr t.project "기타",
   jsOrStr t.due_date "", jsOrStr t.status "대기", jsOrStr t.priority "중",
   jsOrStr t.assignee "나", jsOrFalse t.is_deleted⟩

def mapDbEvent (e : DbEvent) : CalendarEvent :=
  ⟨e.id, e.title, e.start_date, e.end_date, e.type, e.color⟩

/-- `todoService.getTodos`: `data?.map(...) || []` keeps the error field
alongside the mapped rows. -/
def todoService.getTodos (env : Env) :
    Except JsError (List TodoItem × Option JsError) :=
  match env.todosSelect with
  | .error e => .error e
  | .ok r => .ok ((r.data.getD []).map mapDbTodo, r.error)

/-- `todoService.createTodo`. -/
def todoService.createTodo (env : Env) :
    Except JsError (Option TodoItem × Option JsError) :=
  match env.todosInsert with
  | .error e => .error e
  | .ok r => .ok (r.data.map mapDbTodo, r.error)

/-- `calendarService.getEvents`. -/
def calendarService.getEvents (env : Env) :
    Except JsError (List CalendarEvent × Option JsError) :=
  match env.eventsSelect with
  | .error e => .error e
  | .ok r => .ok ((r.data.getD []).map mapDbEvent, r.error)

/-- `calendarService.createEvent`. -/
def calendarService.createEvent (env : Env) :
    Except JsError (Option CalendarEvent × Option JsError) :=
  match env.eventsInsert with
  | .error e => .error e
  | .ok r => .ok (r.data.map mapDbEvent, r.error)

/-- `memoService.createMemo` (on a yielded error it returns
`{ data: null, error }` early; otherwise the mapped row). -/
def memoService.createMemo (env : Env) :
    Except JsError (Option DbMemo × Option JsError) :=
  match env.memosInsert with
  | .error e => .error e
  | .ok r =>
    match r.error with
    | some e => .ok (none, some e)
    | none => .ok (r.data, none)

/-! ## `executeCommand` and `sendMessage` -/

def JSDate.hours (t : JSDate) : Nat := t.msOfDay / 3600000

def JSDate.minutes (t : JSDate) : Nat := t.msOfDay % 3600000 / 60000

def pad4 (n : Nat) : String :=
  if n < 10 then "000" ++ toString n
  else if n < 100 then "00" ++ toString n
  else if n < 1000 then "0" ++ toString n
  else toString n

/-- date-fns `format(d, 'M월 d일 HH:mm')`. -/
def formatMdHm (t : JSDate) : String :=
  toString (t.month + 1) ++ "월 " ++ toString t.day ++ "일 " ++
    pad2 t.hours ++ ":" ++ pad2 t.minutes

/-- date-fns `format(d, 'M월 d일')`. -/
def formatMd (t : JSDate) : String :=
  toString (t.month + 1) ++ "월 " ++ toString t.day ++ "일"

/-- date-fns `format(d, "yyyy-MM-dd'T'HH:mm")`. -/
def formatIsoLocal (t : JSDate) : String :=
  pad4 t.year ++ "-" ++ pad2 (t.month + 1) ++ "-" ++ pad2 t.day ++ "T" ++
    pad2 t.hours ++ ":" ++ pad2 t.minutes

/-- date-fns `format(d, 'M/d HH:mm')`. -/
def formatSlash (t : JSDate) : String :=
  toString (t.month + 1) ++ "/" ++ toString t.day ++ " " ++
    pad2 t.hours ++ ":" ++ pad2 t.minutes

def genericFailureMsg : String := "⚠️ 명령 처리 중 오류가 발생했습니다. 다시 시도해주세요."

def noEventsMsg : String := "등록된 일정이 없습니다."

def noTodosMsg : String := "등록된 할 일이 없습니다."

def askEventTitleMsg : String :=
  "일정 제목을 알려주세요. 예: \"내일 오후 2시에 팀 미팅 일정 추가해줘\""

def askTodoTitleMsg : String :=
  "할 일 내용을 알려주세요. 예: \"금요일까지 보고서 작성 할 일 추가해줘\""

/-- JS `!command.title` (`undefined` or the empty string). -/
def jsFalsyOpt (o : Option String) : Bool :=
  match o with
  | some s => s = ""
  | none => true

/-- The `try` body of `executeCommand`: the sequential `if` blocks of the
source with their early returns, `throw error` on a yielded insert error,
and the final `return ''` fall-through.  `now` models the `new Date()`
defaults. -/
def executeCommandBody (env : Env) (now : JSDate) (command : ParsedCommand) :
    Except JsError String := do
  if command.action = Action.add ∧ command.entity = some Entity.event then
    if jsFalsyOpt command.title then
      return askEventTitleMsg
    let title := command.title.getD ""
    let startDate := command.date.getD now
    let res ← calendarService.createEvent env
    match res.2 with
    | some e => throw e
    | none =>
      return "✅ 일정이 추가되었습니다!\n\n📅 **" ++ title ++ "**\n⏰ " ++
        formatMdHm startDate
  if command.action = Action.add ∧ command.entity = some Entity.todo then
    if jsFalsyOpt command.title then
      return askTodoTitleMsg
    let title := command.title.getD ""
    let dueDate := command.date.getD (now.addDays 1)
    let res ← todoService.createTodo env
    match res.2 with
    | some e => throw e
    | none =>
      return "✅ 할 일이 추가되었습니다!\n\n📝 **" ++ title ++ "**\n📆 마감일: " ++
        formatMd dueDate
  if command.action = Action.add ∧ command.entity = some Entity.memo then
    let title := jsOrStr command.title "새 메모"
    let res ← memoService.createMemo env
    match res.2 with
    | some e => throw e
    | none =>
      return "✅ 메모가 저장되었습니다!\n\n📝 **" ++ title ++ "**"
  if command.action = Action.list ∧ command.entity = some Entity.event then
    let res ← calendarService.getEvents env
    let data := res.1
    if data.isEmpty then
      return noEventsMsg
    let upcoming := data.take 5
    return upcoming.foldl
      (fun acc ev => acc ++ "• " ++ ev.title ++ " - " ++ formatSlash ev.startDate ++ "\n")
      "📅 **다가오는 일정**\n\n"
  if command.action = Action.list ∧ command.entity = some Entity.todo then
    let res ← todoService.getTodos env
    let data := res.1
    if data.isEmpty then
      return noTodosMsg
    let pending := (data.filter (fun t => t.status ≠ "완료")).take 5
    return pending.foldl (fun acc t => acc ++ "• " ++ t.title ++ "\n")
      "📝 **진행 중인 할 일**\n\n"
  return ""

/-- `executeCommand`: the `try`/`catch` wrapper mapping any thrown error to
the generic failure message. -/
def executeCommand (env : Env) (now : JSDate) (command : ParsedCommand) : String :=
  match executeCommandBody env now command with
  | .ok s => s
  | .error _ => genericFailureMsg

structure SendResult where
  response : String
  command : Option ParsedCommand
deriving DecidableEq, Repr

def model404Msg : String := "⚠️ AI 모델 연결에 문제가 있습니다. 잠시 후 다시 시도해주세요."

def genericApologyMsg : String :=
  "⚠️ 죄송합니다. 요청을 처리하는 중 오류가 발생했습니다. 다시 시도해주세요."

/-- The `try` body of `aiService.sendMessage`: parse, dispatch when the
command is actionable and produced a non-empty confirmation, otherwise hand
the original message to the Gemini chat collaborator. -/
def sendMessageBody (env : Env) (now : JSDate) (message : String) :
    Except JsError SendResult := do
  let command := parseCommand now message
  if command.action ≠ Action.chat ∧ command.entity.isSome then
    let result := executeCommand env now command
    if result ≠ "" then
      return ⟨result, some command⟩
  let response ← env.gemini message
  return ⟨response, none⟩

/-- `aiService.sendMessage`: the `catch` maps a thrown error whose message
contains `'404'` to the model-connection apology, anything else to the
generic apology. -/
def sendMessage (env : Env) (now : JSDate) (message : String) : SendResult :=
  match sendMessageBody env now message with
  | .ok r => r
  | .error e =>
    if strContains e.message "404" then ⟨model404Msg, none⟩
    else ⟨genericApologyMsg, none⟩

/-! ## Spec-side definitions

These transcribe the wording of the specification (not the code) and are
used to state the claims as refinements of the implementation. -/

/-- Some keyword of the list occurs in the (lowercased) message. -/
def kwPresent (lower : String) (ks : List String) : Prop :=
  ∃ k ∈ ks, strContains lower k = true

instance (lower : String) (ks : List String) : Decidable (kwPresent lower ks) := by
  unfold kwPresent
  infer_instance

def eventKwB (lower : String) : Bool :=
  strContains lower "일정" || strContains lower "회의" ||
    strContains lower "미팅" || strContains lower "약속"

def todoKwB (lower : String) : Bool :=
  strContains lower "할일" || strContains lower "할 일" ||
    strContains lower "업무" || strContains lower "태스크"

def memoKwB (lower : String) : Bool :=
  strContains lower "메모" || strContains lower "노트"

/-- Entity classification as the spec words it: event keywords first, then
task keywords, then note keywords, first match wins, otherwise none. -/
def specEntity (lower : String) : Option Entity :=
  if eventKwB lower then some Entity.event
  else if todoKwB lower then some Entity.todo
  else if memoKwB lower then some Entity.memo
  else none

/-- A CRUD call that "throws or yields an error": the promise rejected, or
it resolved to a `{ data, error }` pair with a non-null error. -/
def crudCallFailed {α : Type} (r : Except JsError (SupaRes α)) : Prop :=
  (∃ e, r = Except.error e) ∨ (∃ x e, r = Except.ok x ∧ x.error = some e)

/-! ## Concrete fixtures used by counterexamples and witnesses -/

/-- Monday, June 15 2026, midnight. -/
def wNow : JSDate := ⟨2026, 5, 15, 0⟩

/-- An environment whose calls all succeed over empty tables. -/
def okEnv : Env :=
  ⟨Except.ok ⟨none, none⟩, Except.ok ⟨none, none⟩, Except.ok ⟨none, none⟩,
   Except.ok ⟨some [], none⟩, Except.ok ⟨some [], none⟩,
   fun m => Except.ok ("답변: " ++ m)⟩

/-- `okEnv`, but the todo insert resolves with a non-null error. -/
def todoInsertErrEnv : Env :=
  { okEnv with todosInsert := Except.ok ⟨none, some ⟨"insert failed"⟩⟩ }

/-- `okEnv`, but the todo select resolves with a non-null error (and null
data), as Supabase reports failures. -/
def todosSelectErrEnv : Env :=
  { okEnv with todosSelect := Except.ok ⟨none, some ⟨"select failed"⟩⟩ }

/-- `okEnv`, but the todo select promise rejects outright. -/
def todosSelectThrowEnv : Env :=
  { okEnv with todosSelect := Except.error ⟨"network down"⟩ }

/-- Three stored todos: one completed, two pending. -/
def sampleTodos : List DbTodo :=
  [⟨1, "회의록 정리", none, none, none, some "완료", none, none, none⟩,
   ⟨2, "보고서 작성", none, none, none, some "대기", none, none, none⟩,
   ⟨3, "자료 조사", none, none, none, none, none, none, none⟩]

/-- `okEnv` with `sampleTodos` stored. -/
def todosListEnv : Env :=
  { okEnv with todosSelect := Except.ok ⟨some sampleTodos, none⟩ }

/-! ## Calendar arithmetic lemmas -/

theorem daysInMonth_ge (y m : Nat) : 28 ≤ daysInMonth y m := by
  unfold daysInMonth
  split_ifs <;> omega

theorem daysInMonth_le (y m : Nat) : daysInMonth y m ≤ 31 := by
  unfold daysInMonth
  split_ifs <;> omega

theorem rd_day (y m d : Nat) (hd : 1 ≤ d) : rd y m d = rd y m 1 + (d - 1) := by
  unfold rd
  omega

theorem isLeap_iff (y : Nat) :
    isLeap y = true ↔ (y % 4 = 0 ∧ y % 100 ≠ 0) ∨ y % 400 = 0 := by
  unfold isLeap
  simp [Bool.or_eq_true, Bool.and_eq_true, decide_eq_true_iff, bne_iff_ne]

theorem rd_month_step (y m : Nat) (hm : m + 1 < 12) :
    rd y (m + 1) 1 = rd y m (daysInMonth y m) + 1 := by
  have hm10 : m ≤ 10 := by omega
  interval_cases m <;>
    · simp only [rd, daysInMonth, daysBeforeMonth, isLeap_iff]
      split_ifs <;> first | omega | tauto

theorem rd_year_step (y : Nat) (hy : 1 ≤ y) :
    rd (y + 1) 0 1 = rd y 11 31 + 1 := by
  obtain ⟨z, rfl⟩ : ∃ z, y = z + 1 := ⟨y - 1, by omega⟩
  have d4 : ((z + 1) % 4 = 0 ∧ (z + 1) / 4 = z / 4 + 1) ∨
      ((z + 1) % 4 ≠ 0 ∧ (z + 1) / 4 = z / 4) := by omega
  have d100 : ((z + 1) % 100 = 0 ∧ (z + 1) / 100 = z / 100 + 1) ∨
      ((z + 1) % 100 ≠ 0 ∧ (z + 1) / 100 = z / 100) := by omega
  have d400 : ((z + 1) % 400 = 0 ∧ (z + 1) / 400 = z / 400 + 1) ∨
      ((z + 1) % 400 ≠ 0 ∧ (z + 1) / 400 = z / 400) := by omega
  simp only [rd, daysBeforeMonth, isLeap_iff, Nat.add_sub_cancel]
  rcases d4 with ⟨e1, e2⟩ | ⟨e1, e2⟩ <;> rcases d100 with ⟨f1, f2⟩ | ⟨f1, f2⟩ <;>
    rcases d400 with ⟨g1, g2⟩ | ⟨g1, g2⟩ <;> split_ifs <;> omega

/-- Correctness and well-formedness of day normalization, given enough
fuel. -/
theorem normDay_spec : ∀ fuel y m d, 1 ≤ y → m < 12 → 1 ≤ d → d ≤ 28 * fuel →
    rd (normDay fuel y m d).1 (normDay fuel y m d).2.1 (normDay fuel y m d).2.2 =
      rd y m 1 + (d - 1) ∧
    1 ≤ (normDay fuel y m d).1 ∧ (normDay fuel y m d).2.1 < 12 ∧
    1 ≤ (normDay fuel y m d).2.2 ∧
    (normDay fuel y m d).2.2 ≤
      daysInMonth (normDay fuel y m d).1 (normDay fuel y m d).2.1 := by
  intro fuel
  induction fuel with
  | zero => intro y m d hy hm hd hfuel; omega
  | succ f ih =>
    intro y m d hy hm hd hfuel
    by_cases hle : d ≤ daysInMonth y m
    · simp only [normDay, if_pos hle]
      refine ⟨rd_day y m d hd, hy, hm, hd, hle⟩
    · have hdim28 := daysInMonth_ge y m
      have hdim31 := daysInMonth_le y m
      by_cases hm11 : m = 11
      · have hdim : daysInMonth y m = 31 := by
          rw [hm11]; simp [daysInMonth]
        simp only [normDay, if_neg hle, if_pos hm11]
        have h1 : 1 ≤ d - 31 := by omega
        have h2 : d - 31 ≤ 28 * f := by omega
        obtain ⟨hrd, hr1, hr2, hr3, hr4⟩ :=
          ih (y + 1) 0 (d - 31) (by omega) (by omega) h1 h2
        refine ⟨?_, hr1, hr2, hr3, hr4⟩
        rw [hrd, rd_year_step y hy, hm11, rd_day y 11 31 (by omega)]
        omega
      · simp only [normDay, if_neg hle, if_neg hm11]
        have h1 : 1 ≤ d - daysInMonth y m := by omega
        have h2 : d - daysInMonth y m ≤ 28 * f := by omega
        obtain ⟨hrd, hr1, hr2, hr3, hr4⟩ :=
          ih y (m + 1) (d - daysInMonth y m) hy (by omega) h1 h2
        refine ⟨?_, hr1, hr2, hr3, hr4⟩
        rw [hrd, rd_month_step y m (by omega),
          rd_day y m (daysInMonth y m) (by omega)]
        omega

/-- `addDays` advances the day number by exactly `n`, keeps the time of
day, and preserves well-formedness. -/
theorem addDays_spec (t : JSDate) (n : Nat) (hv : t.Valid) :
    (t.addDays n).dayNumber = t.dayNumber + n ∧ (t.addDays n).Valid ∧
      (t.addDays n).msOfDay = t.msOfDay := by
  obtain ⟨hy, hm, hd, hdim, hms⟩ := hv
  have hspec := normDay_spec (t.day + n) t.year t.month (t.day + n) hy hm
    (by omega) (by omega)
  obtain ⟨hrd, hr1, hr2, hr3, hr4⟩ := hspec
  unfold JSDate.addDays JSDate.dayNumber JSDate.Valid
  dsimp only
  refine ⟨?_, ⟨hr1, hr2, hr3, hr4, hms⟩, rfl⟩
  rw [hrd, rd_day t.year t.month t.day hd]
  omega

/-- `getDay` after `addDays`. -/
theorem getDay_addDays (t : JSDate) (n : Nat) (hv : t.Valid) :
    jsGetDay (t.addDays n) = (jsGetDay t + n) % 7 := by
  unfold jsGetDay
  rw [(addDays_spec t n hv).1]
  omega

/-- `normDay` is the identity on an in-range day (one fuel step). -/
theorem normDay_of_le (fuel y m d : Nat) (h : d ≤ daysInMonth y m) :
    normDay (fuel + 1) y m d = (y, m, d) := by
  simp [normDay, h]

/-- `new Date(y, M - 1, D)` with a valid 1-indexed month `M` and in-range
day `D` is just the corresponding civil date at midnight. -/
theorem mkDate_eq (y M D : Nat) (hM1 : 1 ≤ M) (hM2 : M ≤ 12) (hD1 : 1 ≤ D)
    (hD2 : D ≤ daysInMonth y (M - 1)) :
    mkDate y (Int.ofNat M - 1) D = ⟨y, M - 1, D, 0⟩ := by
  obtain ⟨k, rfl⟩ : ∃ k, M = k + 1 := ⟨M - 1, by omega⟩
  obtain ⟨e, rfl⟩ : ∃ e, D = e + 1 := ⟨D - 1, by omega⟩
  have hk : k < 12 := by omega
  have harg : Int.ofNat (k + 1) - 1 = Int.ofNat k := by simp [Int.ofNat_succ]
  have h5 : e + 1 ≤ daysInMonth y k := by simpa using hD2
  have h1 : Int.ediv (Int.ofNat k) 12 = Int.ofNat 0 := by
    have hh : Int.ediv (Int.ofNat k) 12 = Int.ofNat (k / 12) := rfl
    rw [hh, Nat.div_eq_of_lt hk]
  have h2 : Int.emod (Int.ofNat k) 12 = Int.ofNat k := by
    have hh : Int.emod (Int.ofNat k) 12 = Int.ofNat (k % 12) := rfl
    rw [hh, Nat.mod_eq_of_lt hk]
  rw [harg]
  simp only [mkDate, h1, h2]
  rw [if_neg (by omega)]
  have h6 : normDay (e + 1) ((Int.ofNat y + Int.ofNat 0).toNat)
      ((Int.ofNat k).toNat) (e + 1) = (y, k, e + 1) := by
    have hy : (Int.ofNat y + Int.ofNat 0).toNat = y := rfl
    have hk2 : (Int.ofNat k).toNat = k := rfl
    rw [hy, hk2, normDay_of_le e y k (e + 1) h5]
  rw [h6]
  simp

/-- `setFullYear` with a day that stays in range just replaces the year. -/
theorem setFullYear_eq (t : JSDate) (y2 : Nat) (hd1 : 1 ≤ t.day)
    (hd2 : t.day ≤ daysInMonth y2 t.month) :
    t.setFullYear y2 = ⟨y2, t.month, t.day, t.msOfDay⟩ := by
  obtain ⟨e, he⟩ : ∃ e, t.day = e + 1 := ⟨t.day - 1, by omega⟩
  simp only [JSDate.setFullYear, he]
  rw [normDay_of_le e y2 t.month (e + 1) (he ▸ hd2)]

theorem ltB_asymm (a b : JSDate) (h : JSDate.ltB a b = true) :
    JSDate.ltB b a = false := by
  unfold JSDate.ltB at h ⊢
  rw [decide_eq_true_iff] at h
  rw [decide_eq_false_iff_not]
  omega

/-- The `monthDayMatch` branch of `parseKoreanDate`, reached when every
earlier pattern fails. -/
theorem parseKoreanDate_monthDay_branch (now : JSDate) (text : String)
    (caps : Caps)
    (h1 : strContains (jsToLower text) "오늘" = false)
    (h2 : strContains (jsToLower text) "내일" = false)
    (h3 : strContains (jsToLower text) "모레" = false)
    (h4 : weekdayList.find? (fun p => strContains (jsToLower text) p.1) = none)
    (h5 : jsMatchCaps daysLaterRe (jsToLower text) = none)
    (h6 : jsMatchCaps weeksLaterRe (jsToLower text) = none)
    (h7 : jsMatchCaps monthDayRe (jsToLower text) = some caps) :
    parseKoreanDate now text =
      (if JSDate.ltB (mkDate now.year (Int.ofNat (capNat caps 1) - 1) (capNat caps 2)) now
       then some ((mkDate now.year (Int.ofNat (capNat caps 1) - 1) (capNat caps 2)).setFullYear
         ((mkDate now.year (Int.ofNat (capNat caps 1) - 1) (capNat caps 2)).year + 1))
       else some (mkDate now.year (Int.ofNat (capNat caps 1) - 1) (capNat caps 2))) := by
  unfold parseKoreanDate
  simp only [h1, h2, h3, h4, h5, h6, h7, Bool.false_eq_true, if_false]

/-- The weekday branch of `parseKoreanDate`. -/
theorem parseKoreanDate_weekday_branch (now : JSDate) (text : String)
    (p : String × Nat)
    (h1 : strContains (jsToLower text) "오늘" = false)
    (h2 : strContains (jsToLower text) "내일" = false)
    (h3 : strContains (jsToLower text) "모레" = false)
    (h4 : weekdayList.find? (fun q => strContains (jsToLower text) q.1) = some p) :
    parseKoreanDate now text = some (nextDayOfWeek now p.2) := by
  unfold parseKoreanDate
  simp only [h1, h2, h3, h4, Bool.false_eq_true, if_false]

/-- date-fns `nextDay` really is "the next occurrence of the weekday
strictly after the date": same weekday index, strictly later, at most seven
days out, exactly seven when the date already falls on that weekday, and
with the time of day untouched. -/
theorem nextDayOfWeek_spec (t : JSDate) (idx : Nat) (hv : t.Valid)
    (hidx : idx < 7) :
    jsGetDay (nextDayOfWeek t idx) = idx ∧
    t.dayNumber < (nextDayOfWeek t idx).dayNumber ∧
    (nextDayOfWeek t idx).dayNumber ≤ t.dayNumber + 7 ∧
    (jsGetDay t = idx → (nextDayOfWeek t idx).dayNumber = t.dayNumber + 7) ∧
    (nextDayOfWeek t idx).msOfDay = t.msOfDay ∧ (nextDayOfWeek t idx).Valid := by
  have hcur : jsGetDay t < 7 := by unfold jsGetDay; omega
  simp only [nextDayOfWeek]
  set delta := if idx ≤ jsGetDay t then idx + 7 - jsGetDay t else idx - jsGetDay t
    with hdelta
  obtain ⟨hdn, hvalid, hms⟩ := addDays_spec t delta hv
  have hgd := getDay_addDays t delta hv
  have hδ : 1 ≤ delta ∧ delta ≤ 7 ∧ (jsGetDay t + delta) % 7 = idx ∧
      (jsGetDay t = idx → delta = 7) := by
    rw [hdelta]
    split_ifs with hc <;> omega
  refine ⟨?_, ?_, ?_, ?_, hms, hvalid⟩
  · rw [hgd]; exact hδ.2.2.1
  · omega
  · omega
  · intro hi; rw [hdn, hδ.2.2.2 hi]

/-! ## Claim theorems -/

/-- C1 — the spec says `'Y년 M월 D일'` yields exactly the calendar date
`Y-M-D` with no rollover; in the code the `M월 D일` regex is tried first and
matches inside every full-date expression, so the year is ignored and the
rollover applies.  At June 15 2026, `'2025년 1월 15일'` resolves to
January 15 **2027**, not January 15 2025. -/
theorem parseKoreanDate_fullDate_shadowed :
    parseKoreanDate ⟨2026, 5, 15, 0⟩ "2025년 1월 15일" = some ⟨2027, 0, 15, 0⟩ ∧
    some (⟨2027, 0, 15, 0⟩ : JSDate) ≠ some (⟨2025, 0, 15, 0⟩ : JSDate) := by
  constructor
  · decide
  · decide

/-- C4 counterexample — the claim "if `M월 D일` has already passed, the
result is month `M`, day `D` of the next year" fails at `'2월 29일'`: asked
on March 15 2024 (a leap year, so Feb 29 2024 exists and has passed), the
code's `setFullYear(2025)` normalizes the nonexistent Feb 29 2025 to
**March 1 2025**, which is not month 2, day 29 of the next year. -/
theorem parseKoreanDate_feb29_rollover_counterexample :
    JSDate.ltB ⟨2024, 1, 29, 0⟩ ⟨2024, 2, 15, 0⟩ = true ∧
    parseKoreanDate ⟨2024, 2, 15, 0⟩ "2월 29일 회의" = some ⟨2025, 2, 1, 0⟩ ∧
    (⟨2025, 2, 1, 0⟩ : JSDate) ≠ ⟨2025, 1, 29, 0⟩ := by
  refine ⟨by decide, by decide, by decide⟩

/-- C4 (amended) — for a message whose only matching date pattern is
`M월 D일` with a valid month and day: if midnight of `M`/`D` in the current
year is still ahead of `now`, the parse yields that date in the current
year; if it has passed, the parse yields `M`/`D` of the next year —
provided the day is also valid in the next year (otherwise JS day-overflow
normalization applies, see the counterexample). -/
theorem parseKoreanDate_monthDay_rollover (now : JSDate) (text : String)
    (caps : Caps) (M D : Nat)
    (h1 : strContains (jsToLower text) "오늘" = false)
    (h2 : strContains (jsToLower text) "내일" = false)
    (h3 : strContains (jsToLower text) "모레" = false)
    (h4 : weekdayList.find? (fun p => strContains (jsToLower text) p.1) = none)
    (h5 : jsMatchCaps daysLaterRe (jsToLower text) = none)
    (h6 : jsMatchCaps weeksLaterRe (jsToLower text) = none)
    (h7 : jsMatchCaps monthDayRe (jsToLower text) = some caps)
    (hM : capNat caps 1 = M) (hD : capNat caps 2 = D)
    (hM1 : 1 ≤ M) (hM2 : M ≤ 12) (hD1 : 1 ≤ D)
    (hD2 : D ≤ daysInMonth now.year (M - 1)) :
    (JSDate.ltB now ⟨now.year, M - 1, D, 0⟩ = true →
       parseKoreanDate now text = some ⟨now.year, M - 1, D, 0⟩) ∧
    (JSDate.ltB ⟨now.year, M - 1, D, 0⟩ now = true →
       D ≤ daysInMonth (now.year + 1) (M - 1) →
       parseKoreanDate now text = some ⟨now.year + 1, M - 1, D, 0⟩) := by
  have hbr := parseKoreanDate_monthDay_branch now text caps h1 h2 h3 h4 h5 h6 h7
  rw [hM, hD] at hbr
  rw [mkDate_eq now.year M D hM1 hM2 hD1 hD2] at hbr
  constructor
  · intro hlt
    rw [hbr, if_neg (by rw [ltB_asymm now ⟨now.year, M - 1, D, 0⟩ hlt]; exact
      fun hcontra => Bool.noConfusion hcontra)]
  · intro hlt hD3
    rw [hbr, if_pos hlt]
    have hsf := setFullYear_eq ⟨now.year, M - 1, D, 0⟩ (now.year + 1) hD1 hD3
    rw [hsf]

/-- C4 witness — `'7월 1일'` asked on June 15 2026 (July 1 still ahead)
resolves to July 1 2026. -/
theorem parseKoreanDate_monthDay_rollover_witness :
    parseKoreanDate wNow "7월 1일" = some ⟨2026, 6, 1, 0⟩ :=
  (parseKoreanDate_monthDay_rollover wNow "7월 1일" [(2, ['1']), (1, ['7'])] 7 1
    (by decide) (by decide) (by decide) (by decide) (by decide) (by decide)
    (by decide) (by decide) (by decide) (by decide) (by decide) (by decide)
    (by decide)).1 (by decide)

/-- C8 counterexample — at 00:01 on Feb 29 2024 (strictly after midnight of
the named day itself), `'2월 29일'` resolves to **March 1 2025**, not
Feb 29 of the next year: the claim's "month M day D of the NEXT year" fails
when the day does not exist in the next year. -/
theorem parseKoreanDate_sameDay_feb29_counterexample :
    0 < (60000 : Nat) ∧
    parseKoreanDate ⟨2024, 1, 29, 60000⟩ "2월 29일" = some ⟨2025, 2, 1, 0⟩ ∧
    (⟨2025, 2, 1, 0⟩ : JSDate) ≠ ⟨2025, 1, 29, 0⟩ := by
  refine ⟨by decide, by decide, by decide⟩

/-- C8 (amended) — when the only matching pattern is `M월 D일` and `now` is
any moment strictly after midnight of that very day (same month and day,
current year), the candidate midnight date compares strictly below `now`,
so the rollover fires and the result is `M`/`D` of the next year — provided
that day exists in the next year. -/
theorem parseKoreanDate_monthDay_sameDay_nextYear (now : JSDate)
    (text : String) (caps : Caps)
    (h1 : strContains (jsToLower text) "오늘" = false)
    (h2 : strContains (jsToLower text) "내일" = false)
    (h3 : strContains (jsToLower text) "모레" = false)
    (h4 : weekdayList.find? (fun p => strContains (jsToLower text) p.1) = none)
    (h5 : jsMatchCaps daysLaterRe (jsToLower text) = none)
    (h6 : jsMatchCaps weeksLaterRe (jsToLower text) = none)
    (h7 : jsMatchCaps monthDayRe (jsToLower text) = some caps)
    (hv : now.Valid)
    (hM : capNat caps 1 = now.month + 1) (hD : capNat caps 2 = now.day)
    (hms : 0 < now.msOfDay)
    (hD3 : now.day ≤ daysInMonth (now.year + 1) now.month) :
    parseKoreanDate now text = some ⟨now.year + 1, now.month, now.day, 0⟩ := by
  obtain ⟨hy, hmo, hd1, hd2, hmsub⟩ := hv
  have hmain := parseKoreanDate_monthDay_rollover now text caps (now.month + 1)
    now.day h1 h2 h3 h4 h5 h6 h7 hM hD (by omega) (by omega) hd1
    (by simpa using hd2)
  have hlt : JSDate.ltB ⟨now.year, now.month + 1 - 1, now.day, 0⟩ now = true := by
    unfold JSDate.ltB
    rw [decide_eq_true_iff]
    dsimp only
    omega
  have := hmain.2 hlt (by simpa using hD3)
  simpa using this

/-- C8 witness — `'4월 10일'` asked at 09:00 on April 10 2026 resolves to
April 10 2027. -/
theorem parseKoreanDate_monthDay_sameDay_nextYear_witness :
    parseKoreanDate ⟨2026, 3, 10, 32400000⟩ "4월 10일" = some ⟨2027, 3, 10, 0⟩ :=
  parseKoreanDate_monthDay_sameDay_nextYear ⟨2026, 3, 10, 32400000⟩ "4월 10일"
    [(2, ['1', '0']), (1, ['4'])] (by decide) (by decide) (by decide)
    (by decide) (by decide) (by decide) (by decide) (by decide) (by decide)
    (by decide) (by decide) (by decide)

/-- C5 — a message containing a weekday name (and none of 오늘/내일/모레,
which are checked first) resolves to the next occurrence of that weekday
strictly after today: same `getDay` index, strictly later, at most seven
days ahead, and exactly seven days ahead when today already is that
weekday; the time of day is carried over from `now`. -/
theorem parseKoreanDate_weekday_next_strict (now : JSDate) (text : String)
    (w : String) (idx : Nat)
    (hv : now.Valid)
    (h1 : strContains (jsToLower text) "오늘" = false)
    (h2 : strContains (jsToLower text) "내일" = false)
    (h3 : strContains (jsToLower text) "모레" = false)
    (h4 : weekdayList.find? (fun q => strContains (jsToLower text) q.1) =
      some (w, idx)) :
    ∃ r, parseKoreanDate now text = some r ∧ jsGetDay r = idx ∧
      now.dayNumber < r.dayNumber ∧ r.dayNumber ≤ now.dayNumber + 7 ∧
      (jsGetDay now = idx → r.dayNumber = now.dayNumber + 7) ∧
      r.msOfDay = now.msOfDay := by
  have hidx : idx < 7 := by
    have hmem := List.mem_of_find?_eq_some h4
    have hall : ∀ p ∈ weekdayList, p.2 < 7 := by decide
    exact hall _ hmem
  rw [parseKoreanDate_weekday_branch now text (w, idx) h1 h2 h3 h4]
  obtain ⟨g1, g2, g3, g4, g5, g6⟩ := nextDayOfWeek_spec now idx hv hidx
  exact ⟨_, rfl, g1, g2, g3, g4, g5⟩

/-- C5 witness — `'금요일에 회의'` asked on Monday June 15 2026. -/
theorem parseKoreanDate_weekday_next_strict_witness :
    ∃ r, parseKoreanDate wNow "금요일에 회의" = some r ∧ jsGetDay r = 5 ∧
      wNow.dayNumber < r.dayNumber ∧ r.dayNumber ≤ wNow.dayNumber + 7 ∧
      (jsGetDay wNow = 5 → r.dayNumber = wNow.dayNumber + 7) ∧
      r.msOfDay = wNow.msOfDay :=
  parseKoreanDate_weekday_next_strict wNow "금요일에 회의" "금요일" 5
    (by decide) (by decide) (by decide) (by decide) (by decide)

/-! ## String and command-layer lemmas -/

theorem listIsInfix_iff (sub s : List Char) :
    listIsInfix sub s = true ↔ sub <:+: s := by
  induction s with
  | nil =>
    simp only [listIsInfix, List.isEmpty_iff, List.infix_nil]
  | cons c tail ih =>
    simp only [listIsInfix, Bool.or_eq_true, List.isPrefixOf_iff_prefix, ih,
      List.infix_cons_iff]

theorem strContains_iff (s sub : String) :
    strContains s sub = true ↔ sub.data <:+: s.data :=
  listIsInfix_iff sub.data s.data

/-- Folding string appends only grows the text, preserving substrings. -/
theorem foldl_append_infix_mono {α : Type} (f : α → String) (s : List Char) :
    ∀ (l : List α) (acc : String), s <:+: acc.data →
      s <:+: (l.foldl (fun a x => a ++ f x) acc).data := by
  intro l
  induction l with
  | nil => intro acc h; exact h
  | cons x xs ih =>
    intro acc h
    simp only [List.foldl_cons]
    exact ih (acc ++ f x) (by rw [String.data_append]
                              exact h.trans (List.prefix_append acc.data (f x).data).isInfix)

/-- Every element's rendering occurs in the folded text. -/
theorem foldl_append_contains {α : Type} (f : α → String) :
    ∀ (l : List α) (acc : String) (t : α), t ∈ l →
      (f t).data <:+: (l.foldl (fun a x => a ++ f x) acc).data := by
  intro l
  induction l with
  | nil => intro acc t ht; cases ht
  | cons x xs ih =>
    intro acc t ht
    simp only [List.foldl_cons]
    rcases List.mem_cons.mp ht with rfl | hmem
    · refine foldl_append_infix_mono f (f t).data xs (acc ++ f t) ?_
      rw [String.data_append]
      exact (List.suffix_append acc.data (f t).data).isInfix
    · exact ih (acc ++ f x) t hmem

theorem kwPresent_iff_any (lower : String) (ks : List String) :
    kwPresent lower ks ↔ ks.any (fun k => strContains lower k) = true :=
  (List.any_eq_true).symm

theorem detectAction_ne_update (lower : String) :
    detectAction lower ≠ some Action.update := by
  unfold detectAction
  split_ifs <;> simp

/-- The action detector, characterized by the spec's keyword-presence
precedence (add, then delete, then list). -/
theorem detectAction_char (lower : String) :
    detectAction lower =
      if kwPresent lower addKeywords then some Action.add
      else if kwPresent lower deleteKeywords then some Action.delete
      else if kwPresent lower listKeywords then some Action.list
      else none := by
  have bridge : ∀ ks : List String,
      (ks.any fun k => strContains lower k) = true ↔ kwPresent lower ks :=
    fun ks => List.any_eq_true
  unfold detectAction
  by_cases hA : kwPresent lower addKeywords
  · rw [if_pos ((bridge addKeywords).mpr hA), if_pos hA]
  · rw [if_neg (fun hc => hA ((bridge addKeywords).mp hc)), if_neg hA]
    by_cases hD : kwPresent lower deleteKeywords
    · rw [if_pos ((bridge deleteKeywords).mpr hD), if_pos hD]
    · rw [if_neg (fun hc => hD ((bridge deleteKeywords).mp hc)), if_neg hD]
      by_cases hL : kwPresent lower listKeywords
      · rw [if_pos ((bridge listKeywords).mpr hL), if_pos hL]
      · rw [if_neg (fun hc => hL ((bridge listKeywords).mp hc)), if_neg hL]

/-- The entity detector coincides with the spec-side precedence table. -/
theorem detectEntity_eq_specEntity (lower : String) :
    detectEntity lower = specEntity lower := rfl

/-- The action and entity fields of `parseCommand`, as a function of the
two detectors. -/
theorem parseCommand_action_entity (now : JSDate) (msg : String) :
    ((parseCommand now msg).action, (parseCommand now msg).entity) =
      (match detectAction (jsToLower msg) with
       | none => (Action.chat, none)
       | some a =>
         match detectEntity (jsToLower msg) with
         | none => (Action.chat, none)
         | some e => (a, some e)) := by
  simp only [parseCommand]
  cases h1 : detectAction (jsToLower msg) with
  | none => rfl
  | some a =>
    cases h2 : detectEntity (jsToLower msg) with
    | none => rfl
    | some e => rfl

/-- C3 — `parseCommand` classifies the action with the fixed precedence
add > delete > list over keyword presence (`chat` when none is present, in
which case the whole command is the untouched base record with no entity);
entity classification follows the spec's event > todo > memo table
(`specEntity`), and a non-chat action without a recognized entity is
downgraded to `chat` with no entity. -/
theorem parseCommand_classification (now : JSDate) (msg : String) :
    (¬kwPresent (jsToLower msg) addKeywords →
     ¬kwPresent (jsToLower msg) deleteKeywords →
     ¬kwPresent (jsToLower msg) listKeywords →
       parseCommand now msg = ⟨Action.chat, none, none, none, none, none, msg⟩) ∧
    (kwPresent (jsToLower msg) addKeywords →
       (∀ e, specEntity (jsToLower msg) = some e →
          (parseCommand now msg).action = Action.add ∧
          (parseCommand now msg).entity = some e) ∧
       (specEntity (jsToLower msg) = none →
          (parseCommand now msg).action = Action.chat ∧
          (parseCommand now msg).entity = none)) ∧
    (¬kwPresent (jsToLower msg) addKeywords →
     kwPresent (jsToLower msg) deleteKeywords →
       (∀ e, specEntity (jsToLower msg) = some e →
          (parseCommand now msg).action = Action.delete ∧
          (parseCommand now msg).entity = some e) ∧
       (specEntity (jsToLower msg) = none →
          (parseCommand now msg).action = Action.chat ∧
          (parseCommand now msg).entity = none)) ∧
    (¬kwPresent (jsToLower msg) addKeywords →
     ¬kwPresent (jsToLower msg) deleteKeywords →
     kwPresent (jsToLower msg) listKeywords →
       (∀ e, specEntity (jsToLower msg) = some e →
          (parseCommand now msg).action = Action.list ∧
          (parseCommand now msg).entity = some e) ∧
       (specEntity (jsToLower msg) = none →
          (parseCommand now msg).action = Action.chat ∧
          (parseCommand now msg).entity = none)) := by
  have hAE := parseCommand_action_entity now msg
  rw [detectAction_char, detectEntity_eq_specEntity] at hAE
  refine ⟨?_, ?_, ?_, ?_⟩
  · intro hA hD hL
    simp only [parseCommand]
    rw [detectAction_char, if_neg hA, if_neg hD, if_neg hL]
  · intro hA
    rw [if_pos hA] at hAE
    constructor
    · intro e he
      rw [he] at hAE
      dsimp only at hAE
      rw [Prod.mk.injEq] at hAE
      exact hAE
    · intro he
      rw [he] at hAE
      dsimp only at hAE
      rw [Prod.mk.injEq] at hAE
      exact hAE
  · intro hA hD
    rw [if_neg hA, if_pos hD] at hAE
    constructor
    · intro e he
      rw [he] at hAE
      dsimp only at hAE
      rw [Prod.mk.injEq] at hAE
      exact hAE
    · intro he
      rw [he] at hAE
      dsimp only at hAE
      rw [Prod.mk.injEq] at hAE
      exact hAE
  · intro hA hD hL
    rw [if_neg hA, if_neg hD, if_pos hL] at hAE
    constructor
    · intro e he
      rw [he] at hAE
      dsimp only at hAE
      rw [Prod.mk.injEq] at hAE
      exact hAE
    · intro he
      rw [he] at hAE
      dsimp only at hAE
      rw [Prod.mk.injEq] at hAE
      exact hAE

/-- C3 witness — `'내일 회의 잡아줘'` contains the add keyword `잡아` and
the event keyword `회의`. -/
theorem parseCommand_classification_witness :
    kwPresent (jsToLower "내일 회의 잡아줘") addKeywords ∧
    specEntity (jsToLower "내일 회의 잡아줘") = some Entity.event ∧
    (parseCommand wNow "내일 회의 잡아줘").action = Action.add ∧
    (parseCommand wNow "내일 회의 잡아줘").entity = some Entity.event := by
  refine ⟨by decide, by decide, ?_⟩
  exact ((parseCommand_classification wNow "내일 회의 잡아줘").2.1 (by decide)).1
    Entity.event (by decide)

/-- C7 counterexample — the claim quantifies over *every* message without a
quoted span, but title extraction only runs for actionable commands: a
keyword-free chat message whose stripped text is well over 3 characters
still yields a command with no title. -/
theorem parseCommand_title_chat_counterexample :
    jsMatchCaps quotedRe "안녕하세요 반갑습니다" = none ∧
    2 < utf16Len (stripTitle "안녕하세요 반갑습니다") ∧
    (parseCommand wNow "안녕하세요 반갑습니다").title = none := by
  refine ⟨by decide, by decide, by decide⟩

/-- C7 (amended) — for a message that classifies to a non-chat action with
a recognized entity and has no quoted span, the command's title is exactly
the keyword/date/time-stripped, trimmed message when its JS length is 3 or
more, and absent otherwise. -/
theorem parseCommand_stripped_title_threshold (now : JSDate) (msg : String)
    (act : Action) (ent : Entity)
    (hA : detectAction (jsToLower msg) = some act)
    (hE : detectEntity (jsToLower msg) = some ent)
    (hq : jsMatchCaps quotedRe msg = none) :
    (parseCommand now msg).title =
      (if 2 < utf16Len (stripTitle msg) then some (stripTitle msg) else none) ∧
    ((parseCommand now msg).title.isSome = true ↔ 3 ≤ utf16Len (stripTitle msg)) := by
  have htitle : (parseCommand now msg).title = extractTitle msg := by
    simp only [parseCommand, hA, hE]
  rw [htitle]
  unfold extractTitle
  rw [hq]
  refine ⟨rfl, ?_⟩
  by_cases hlen : 2 < utf16Len (stripTitle msg)
  · rw [if_pos hlen]
    simp
    omega
  · rw [if_neg hlen]
    simp
    omega

/-- C7 witness — `'금요일까지 보고서 작성 할 일 추가해줘'` (no quotes)
keeps its stripped remainder as the title. -/
theorem parseCommand_stripped_title_threshold_witness :
    (parseCommand wNow "금요일까지 보고서 작성 할 일 추가해줘").title =
      (if 2 < utf16Len (stripTitle "금요일까지 보고서 작성 할 일 추가해줘")
       then some (stripTitle "금요일까지 보고서 작성 할 일 추가해줘") else none) ∧
    ((parseCommand wNow "금요일까지 보고서 작성 할 일 추가해줘").title.isSome = true ↔
      3 ≤ utf16Len (stripTitle "금요일까지 보고서 작성 할 일 추가해줘")) :=
  parseCommand_stripped_title_threshold wNow "금요일까지 보고서 작성 할 일 추가해줘"
    Action.add Entity.todo (by decide) (by decide) (by decide)

/-- C10 — `parseCommand` is a total function of its input (it is defined
without any partiality in this embedding) and returns the original message
verbatim in its `originalMessage` field on every control path; the helper
resolvers signal no-match with `none` rather than an exception, shown on a
pattern-free message. -/
theorem parseCommand_total_preserves_message :
    (∀ (now : JSDate) (msg : String), (parseCommand now msg).originalMessage = msg) ∧
    parseKoreanDate wNow "그냥 잡담" = none ∧ parseTime "그냥 잡담" = none := by
  refine ⟨?_, by decide, by decide⟩
  intro now msg
  simp only [parseCommand]
  cases h1 : detectAction (jsToLower msg) with
  | none => rfl
  | some a =>
    cases h2 : detectEntity (jsToLower msg) with
    | none => rfl
    | some e => rfl

/-- C9 — `parseCommand` never classifies `update` (its keyword table has no
update class), and a message classified `delete` with a recognized entity
reaches the dispatcher's final `return ''` without touching any
collaborator; `sendMessage` treats the empty confirmation as "not a
command" and forwards the original message to the Gemini responder, whose
reply is returned as an ordinary chat answer with no recognized command. -/
theorem parseCommand_delete_falls_through_to_chat :
    (∀ (now : JSDate) (msg : String), (parseCommand now msg).action ≠ Action.update) ∧
    (∀ (env : Env) (now : JSDate) (msg : String) (r : String),
      (parseCommand now msg).action = Action.delete →
      ((parseCommand now msg).entity).isSome = true →
      env.gemini msg = Except.ok r →
      executeCommand env now (parseCommand now msg) = "" ∧
      sendMessage env now msg = ⟨r, none⟩) := by
  constructor
  · intro now msg hupd
    have hAE := parseCommand_action_entity now msg
    cases h1 : detectAction (jsToLower msg) with
    | none =>
      rw [h1] at hAE
      dsimp only at hAE
      rw [Prod.mk.injEq] at hAE
      rw [hAE.1] at hupd
      exact Action.noConfusion hupd
    | some a =>
      cases h2 : detectEntity (jsToLower msg) with
      | none =>
        rw [h1, h2] at hAE
        dsimp only at hAE
        rw [Prod.mk.injEq] at hAE
        rw [hAE.1] at hupd
        exact Action.noConfusion hupd
      | some e =>
        rw [h1, h2] at hAE
        dsimp only at hAE
        rw [Prod.mk.injEq] at hAE
        rw [hAE.1] at hupd
        rw [hupd] at h1
        exact detectAction_ne_update (jsToLower msg) h1
  · intro env now msg r hAct hEnt hgem
    have hbody : executeCommandBody env now (parseCommand now msg) = Except.ok "" := by
      unfold executeCommandBody
      simp [hAct]
      rfl
    have hexec : executeCommand env now (parseCommand now msg) = "" := by
      unfold executeCommand
      rw [hbody]
    refine ⟨hexec, ?_⟩
    unfold sendMessage sendMessageBody
    simp [hAct, hEnt, hexec, hgem]

/-- C9 witness — `'회의 삭제해줘'` (delete + event) against the all-ok
environment. -/
theorem parseCommand_delete_falls_through_to_chat_witness :
    executeCommand okEnv wNow (parseCommand wNow "회의 삭제해줘") = "" ∧
    sendMessage okEnv wNow "회의 삭제해줘" = ⟨"답변: 회의 삭제해줘", none⟩ :=
  parseCommand_delete_falls_through_to_chat.2 okEnv wNow "회의 삭제해줘"
    "답변: 회의 삭제해줘" (by decide) (by decide) rfl

/-- C2 counterexample — a `list`/`todo` dispatch whose store call resolves
with a non-null error is *not* converted to the generic failure message:
the list branch destructures only `data`, ignores `error`, and renders the
"none found" reply. -/
theorem sendMessage_list_error_not_generic :
    crudCallFailed todosSelectErrEnv.todosSelect ∧
    sendMessage todosSelectErrEnv wNow "할 일 보여줘" =
      ⟨noTodosMsg, some (parseCommand wNow "할 일 보여줘")⟩ ∧
    noTodosMsg ≠ genericFailureMsg := by
  refine ⟨Or.inr ⟨⟨none, some ⟨"select failed"⟩⟩, ⟨"select failed"⟩, rfl, rfl⟩,
    by decide, by decide⟩

/-- C2 (amended) — `sendMessage` always returns normally: its body either
succeeds, or throws and the catch maps the error to one of the two fixed
apology messages.  When an **add**-branch CRUD call throws or resolves with
a non-null error, and when a **list**-branch CRUD call throws,
`executeCommand` returns exactly the generic failure constant (which does
not mention the error); the list branches, by contrast, ignore a *yielded*
error field (see the counterexample). -/
theorem sendMessage_never_throws_crud_errors_generic :
    (∀ (env : Env) (now : JSDate) (msg : String),
      (∃ r, sendMessageBody env now msg = Except.ok r ∧
        sendMessage env now msg = r) ∨
      (∃ e, sendMessageBody env now msg = Except.error e ∧
        (sendMessage env now msg = ⟨model404Msg, none⟩ ∨
         sendMessage env now msg = ⟨genericApologyMsg, none⟩))) ∧
    (∀ (env : Env) (now : JSDate) (cmd : ParsedCommand),
      cmd.action = Action.add →
      ((cmd.entity = some Entity.event ∧ jsFalsyOpt cmd.title = false ∧
          crudCallFailed env.eventsInsert) ∨
       (cmd.entity = some Entity.todo ∧ jsFalsyOpt cmd.title = false ∧
          crudCallFailed env.todosInsert) ∨
       (cmd.entity = some Entity.memo ∧ crudCallFailed env.memosInsert)) →
      executeCommand env now cmd = genericFailureMsg) ∧
    (∀ (env : Env) (now : JSDate) (cmd : ParsedCommand),
      cmd.action = Action.list →
      ((cmd.entity = some Entity.event ∧
          (∃ e, env.eventsSelect = Except.error e)) ∨
       (cmd.entity = some Entity.todo ∧
          (∃ e, env.todosSelect = Except.error e))) →
      executeCommand env now cmd = genericFailureMsg) := by
  refine ⟨?_, ?_, ?_⟩
  · intro env now msg
    cases hb : sendMessageBody env now msg with
    | ok r =>
      exact Or.inl ⟨r, rfl, by unfold sendMessage; rw [hb]⟩
    | error e =>
      refine Or.inr ⟨e, rfl, ?_⟩
      unfold sendMessage
      rw [hb]
      dsimp only
      by_cases h404 : strContains e.message "404" = true
      · exact Or.inl (by rw [if_pos h404])
      · exact Or.inr (by rw [if_neg h404])
  · intro env now cmd hAct hfail
    unfold executeCommand executeCommandBody
    rcases hfail with ⟨hEnt, hTitle, hIns⟩ | ⟨hEnt, hTitle, hIns⟩ | ⟨hEnt, hIns⟩
    · rcases hIns with ⟨e, he⟩ | ⟨x, e, hx, hxe⟩
      · simp [hAct, hEnt, hTitle, calendarService.createEvent, he, Except.bind,
          Except.map, Bind.bind, Functor.map, throw, throwThe, MonadExceptOf.throw,
          pure, Except.pure]
      · simp [hAct, hEnt, hTitle, calendarService.createEvent, hx, hxe, Except.bind,
          Except.map, Bind.bind, Functor.map, throw, throwThe, MonadExceptOf.throw,
          pure, Except.pure]
    · rcases hIns with ⟨e, he⟩ | ⟨x, e, hx, hxe⟩
      · simp [hAct, hEnt, hTitle, todoService.createTodo, he, Except.bind,
          Except.map, Bind.bind, Functor.map, throw, throwThe, MonadExceptOf.throw,
          pure, Except.pure]
      · simp [hAct, hEnt, hTitle, todoService.createTodo, hx, hxe, Except.bind,
          Except.map, Bind.bind, Functor.map, throw, throwThe, MonadExceptOf.throw,
          pure, Except.pure]
    · rcases hIns with ⟨e, he⟩ | ⟨x, e, hx, hxe⟩
      · simp [hAct, hEnt, memoService.createMemo, he, Except.bind,
          Except.map, Bind.bind, Functor.map, throw, throwThe, MonadExceptOf.throw,
          pure, Except.pure]
      · simp [hAct, hEnt, memoService.createMemo, hx, hxe, Except.bind,
          Except.map, Bind.bind, Functor.map, throw, throwThe, MonadExceptOf.throw,
          pure, Except.pure]
  · intro env now cmd hAct hfail
    unfold executeCommand executeCommandBody
    rcases hfail with ⟨hEnt, e, he⟩ | ⟨hEnt, e, he⟩
    · simp [hAct, hEnt, calendarService.getEvents, he, Except.bind,
        Except.map, Bind.bind, Functor.map, throw, throwThe, MonadExceptOf.throw,
        pure, Except.pure]
    · simp [hAct, hEnt, todoService.getTodos, he, Except.bind,
        Except.map, Bind.bind, Functor.map, throw, throwThe, MonadExceptOf.throw,
        pure, Except.pure]

/-- C6 — for a `list`/`todo` command with a normally-resolving task store,
the reply is exactly the "none found" message when the store holds no
tasks, and otherwise exactly the header followed by one bullet line per
task of the first 5 non-completed tasks; consequently it shows at most 5
tasks, each non-completed and rendered as its own bullet line containing
the task's title. -/
theorem executeCommand_list_todo (env : Env) (now : JSDate)
    (cmd : ParsedCommand) (rows : Option (List DbTodo)) (err : Option JsError)
    (hAct : cmd.action = Action.list) (hEnt : cmd.entity = some Entity.todo)
    (henv : env.todosSelect = Except.ok ⟨rows, err⟩) :
    ∃ response, executeCommand env now cmd = response ∧
      response =
        (if ((rows.getD []).map mapDbTodo).isEmpty then noTodosMsg
         else ((((rows.getD []).map mapDbTodo).filter
             (fun t => t.status ≠ "완료")).take 5).foldl
           (fun acc t => acc ++ ("• " ++ t.title ++ "\n"))
           "📝 **진행 중인 할 일**\n\n") ∧
      ((((rows.getD []).map mapDbTodo).filter
          (fun t => t.status ≠ "완료")).take 5).length ≤ 5 ∧
      (∀ t ∈ (((rows.getD []).map mapDbTodo).filter
          (fun t => t.status ≠ "완료")).take 5,
        t.status ≠ "완료" ∧
        strContains response ("• " ++ t.title ++ "\n") = true) ∧
      ((rows.getD []).map mapDbTodo = [] → response = noTodosMsg) := by
  have hget : todoService.getTodos env =
      Except.ok ((rows.getD []).map mapDbTodo, err) := by
    unfold todoService.getTodos
    rw [henv]
  by_cases hnil : (rows.getD []).map mapDbTodo = []
  · refine ⟨noTodosMsg, ?_, ?_, ?_, ?_, fun _ => rfl⟩
    · unfold executeCommand executeCommandBody
      simp [hAct, hEnt, hget, hnil, Except.bind, Bind.bind, pure, Except.pure]
    · rw [if_pos (by rw [List.isEmpty_iff]; exact hnil)]
    · exact Nat.le_of_lt_succ (by simp [hnil])
    · intro t ht
      rw [hnil] at ht
      cases ht
  · refine ⟨((((rows.getD []).map mapDbTodo).filter
        (fun t => t.status ≠ "완료")).take 5).foldl
          (fun acc t => acc ++ ("• " ++ t.title ++ "\n"))
          "📝 **진행 중인 할 일**\n\n", ?_, ?_, ?_, ?_,
        fun hcontra => absurd hcontra hnil⟩
    · unfold executeCommand executeCommandBody
      have hassoc : (fun (acc : String) (t : TodoItem) => acc ++ "• " ++ t.title ++ "\n") =
          (fun (acc : String) (t : TodoItem) => acc ++ ("• " ++ t.title ++ "\n")) := by
        funext a t
        simp [String.append_assoc]
      simp [hAct, hEnt, hget, hnil, hassoc, Except.bind, Bind.bind, pure, Except.pure]
    · rw [if_neg (by rw [List.isEmpty_iff]; exact hnil)]
    · exact List.length_take_le 5 _
    · intro t ht
      have hmem : t ∈ ((rows.getD []).map mapDbTodo).filter
          (fun t => t.status ≠ "완료") := List.mem_of_mem_take ht
      have hstat : t.status ≠ "완료" := by
        have := (List.mem_filter.mp hmem).2
        exact of_decide_eq_true this
      refine ⟨hstat, ?_⟩
      rw [strContains_iff]
      exact foldl_append_contains (fun t => "• " ++ t.title ++ "\n") _ _ t ht

/-- C6 witness — three stored todos, one completed: the reply is exactly
the header with the two pending bullets. -/
theorem executeCommand_list_todo_witness :
    ∃ response,
      executeCommand todosListEnv wNow (parseCommand wNow "할 일 보여줘") = response ∧
      response =
        (if (((some sampleTodos).getD []).map mapDbTodo).isEmpty then noTodosMsg
         else (((((some sampleTodos).getD []).map mapDbTodo).filter
             (fun t => t.status ≠ "완료")).take 5).foldl
           (fun acc t => acc ++ ("• " ++ t.title ++ "\n"))
           "📝 **진행 중인 할 일**\n\n") ∧
      (((((some sampleTodos).getD []).map mapDbTodo).filter
          (fun t => t.status ≠ "완료")).take 5).length ≤ 5 ∧
      (∀ t ∈ ((((some sampleTodos).getD []).map mapDbTodo).filter
          (fun t => t.status ≠ "완료")).take 5,
        t.status ≠ "완료" ∧
        strContains response ("• " ++ t.title ++ "\n") = true) ∧
      (((some sampleTodos).getD []).map mapDbTodo = [] → response = noTodosMsg) :=
  executeCommand_list_todo todosListEnv wNow (parseCommand wNow "할 일 보여줘")
    (some sampleTodos) none (by decide) (by decide) rfl

/-- C2 witness — a todo insert resolving with an error, and a todo select
whose promise rejects, both yield exactly the generic failure message. -/
theorem sendMessage_never_throws_crud_errors_generic_witness :
    executeCommand todoInsertErrEnv wNow
      ⟨Action.add, some Entity.todo, some "보고서 작성", none, none, none,
        "내일 보고서 작성 할 일 추가해줘"⟩ = genericFailureMsg ∧
    executeCommand todosSelectThrowEnv wNow
      ⟨Action.list, some Entity.todo, none, none, none, none,
        "할 일 보여줘"⟩ = genericFailureMsg :=
  ⟨sendMessage_never_throws_crud_errors_generic.2.1 todoInsertErrEnv wNow
    ⟨Action.add, some Entity.todo, some "보고서 작성", none, none, none,
      "내일 보고서 작성 할 일 추가해줘"⟩ rfl
    (Or.inr (Or.inl ⟨rfl, by decide,
      Or.inr ⟨⟨none, some ⟨"insert failed"⟩⟩, ⟨"insert failed"⟩, rfl, rfl⟩⟩)),
   sendMessage_never_throws_crud_errors_generic.2.2 todosSelectThrowEnv wNow
    ⟨Action.list, some Entity.todo, none, none, none, none, "할 일 보여줘"⟩ rfl
    (Or.inr ⟨rfl, ⟨"network down"⟩, rfl⟩)⟩

end TWP
